import Mathlib

/-!
Shallow embedding of the mesh-cutting program `stlcut.cpp` and proofs about
its specification.  The geometric core (vertex classification, facet
splitting, border stitching, cap building) is modelled over an arbitrary
linear ordered field `K`; the parts of the program that use `sqrt`
(basis normalisation, Euclidean lengths) are modelled over the reals.
Floating point arithmetic is idealised as exact field arithmetic.
-/

namespace Stlcut

/-- `enum stl_position { above, on, below }` — vertex position
relative to the plane. -/
inductive stl_position where
  | above : stl_position
  | on : stl_position
  | below : stl_position
deriving DecidableEq, Repr

/-- `stl_vertex` — three coordinates.  Also used for direction vectors
(the source aliases `stl_vector = stl_vertex`). -/
structure stl_vertex (K : Type) where
  x : K
  y : K
  z : K
deriving DecidableEq, Repr

variable {K : Type} [LinearOrderedField K]

instance : Inhabited (stl_vertex K) :=
  ⟨⟨0, 0, 0⟩⟩

/-- `dot` — dot product of two vectors (`a.x*b.x + a.y*b.y + a.z*b.z`). -/
def dot (a b : stl_vertex K) : K :=
  a.x * b.x + a.y * b.y + a.z * b.z

/-- `struct stl_plane` — the plane `x*X + y*Y + z*Z + d = 0` together with
the in-plane basis vectors `a`, `b` stored by the constructor. -/
structure stl_plane (K : Type) where
  x : K
  y : K
  z : K
  d : K
  a : stl_vertex K
  b : stl_vertex K
deriving DecidableEq, Repr

/-- `stl_plane::position` — sign of `x*v.x + y*v.y + z*v.z + d`:
positive gives `above`, negative gives `below`, zero gives `on`. -/
def position (p : stl_plane K) (v : stl_vertex K) : stl_position :=
  let result := p.x * v.x + p.y * v.y + p.z * v.z + p.d
  if 0 < result then .above
  else if result < 0 then .below
  else .on

/-- `stl_plane::intersection` — intersection of the line through `a`, `b`
with the plane, via `t = -(a·n + d) / ((b-a)·n)`. -/
def intersection (p : stl_plane K) (a b : stl_vertex K) : stl_vertex K :=
  let ab : stl_vertex K := ⟨b.x - a.x, b.y - a.y, b.z - a.z⟩
  let t : K := -(a.x * p.x + a.y * p.y + a.z * p.z + p.d) /
      (ab.x * p.x + ab.y * p.y + ab.z * p.z)
  ⟨a.x + ab.x * t, a.y + ab.y * t, a.z + ab.z * t⟩

/-- `stl_plane::to_2D` — project `vertex - origin` on the stored basis. -/
def to_2D (p : stl_plane K) (vertex origin : stl_vertex K) : stl_vertex K :=
  let ov : stl_vertex K := ⟨vertex.x - origin.x, vertex.y - origin.y, vertex.z - origin.z⟩
  ⟨dot p.a ov, dot p.b ov, 0⟩

/-- `stl_plane::to_3D` — `origin + a*vx + b*vy`. -/
def to_3D (p : stl_plane K) (vertex origin : stl_vertex K) : stl_vertex K :=
  ⟨origin.x + p.a.x * vertex.x + p.b.x * vertex.y,
   origin.y + p.a.y * vertex.x + p.b.y * vertex.y,
   origin.z + p.a.z * vertex.x + p.b.z * vertex.y⟩

/-- `stl_facet` — three vertices, a normal and the two opaque extra
bytes copied around by `semifacet`. -/
structure stl_facet (K : Type) where
  vertex : Fin 3 → stl_vertex K
  normal : stl_vertex K
  extra : Int × Int
deriving DecidableEq

/-- `semifacet` — a sub-facet of `original` with the given three
vertices, copying the normal and the extra bytes. -/
def semifacet (original : stl_facet K) (a b c : stl_vertex K) : stl_facet K :=
  { vertex := ![a, b, c], normal := original.normal, extra := original.extra }

/-- The effect of one `separate` call: the facets pushed to the `upper`
and `lower` deques and the edges inserted into the `border` set. -/
structure CutOutput (K : Type) where
  upper : List (stl_facet K)
  lower : List (stl_facet K)
  border : List (stl_vertex K × stl_vertex K)
deriving DecidableEq

/-- `simple_cut` — one vertex (`zero`) on the plane: returns the facet
pushed to the `first` deque, the facet pushed to the `second` deque and
the border edge inserted, with `middle = intersection(one, two)`. -/
def simple_cut (zero one two : stl_vertex K) (facet : stl_facet K) (plane : stl_plane K) :
    List (stl_facet K) × List (stl_facet K) × (stl_vertex K × stl_vertex K) :=
  let middle := intersection plane one two
  ([semifacet facet middle zero one], [semifacet facet middle two zero], (one, middle))

/-- `complex_cut` — no vertex on the plane, `zero` alone on its side:
returns the facet pushed to the `first` deque, the two facets pushed to
the `second` deque and the inserted border edge. -/
def complex_cut (zero one two : stl_vertex K) (facet : stl_facet K) (plane : stl_plane K) :
    List (stl_facet K) × List (stl_facet K) × (stl_vertex K × stl_vertex K) :=
  let one_middle := intersection plane zero one
  let two_middle := intersection plane zero two
  ([semifacet facet zero one_middle two_middle],
   [semifacet facet one_middle one two, semifacet facet one_middle two two_middle],
   (one_middle, two_middle))

/-- `separate` — classify a facet against the plane and distribute it
(possibly cut) to the upper/lower deques and the border set.  The result
records exactly what the call appends to each container. -/
def separate (facet : stl_facet K) (plane : stl_plane K) : CutOutput K :=
  let pos : Fin 3 → stl_position := fun i => position plane (facet.vertex i)
  let aboves : Nat := (if pos 0 = .above then 1 else 0) +
    (if pos 1 = .above then 1 else 0) + (if pos 2 = .above then 1 else 0)
  let belows : Nat := (if pos 0 = .below then 1 else 0) +
    (if pos 1 = .below then 1 else 0) + (if pos 2 = .below then 1 else 0)
  let ons : Nat := (if pos 0 = .on then 1 else 0) +
    (if pos 1 = .on then 1 else 0) + (if pos 2 = .on then 1 else 0)
  if aboves = 3 then ⟨[facet], [], []⟩
  else if belows = 3 then ⟨[], [facet], []⟩
  else if ons = 3 then ⟨[], [], []⟩
  else if ons = 2 then
    -- the source iterates i = 0, 1, 2 with no early exit
    (List.finRange 3).foldl (fun acc i =>
      if pos i = .above then
        ⟨acc.upper ++ [facet], acc.lower,
         acc.border ++ [(facet.vertex (i + 1), facet.vertex (i + 2))]⟩
      else if pos i = .below then
        ⟨acc.upper, acc.lower ++ [facet],
         acc.border ++ [(facet.vertex (i + 2), facet.vertex (i + 1))]⟩
      else acc) ⟨[], [], []⟩
  else if ons = 1 then
    -- the source takes the first index whose position is `on`
    let i : Fin 3 := if pos 0 = .on then 0 else if pos 1 = .on then 1 else 2
    let zero := facet.vertex i
    let one := facet.vertex (i + 1)
    let onepos := pos (i + 1)
    let two := facet.vertex (i + 2)
    if aboves = 2 then ⟨[facet], [], []⟩
    else if belows = 2 then ⟨[], [facet], []⟩
    else if onepos = .above then
      let c := simple_cut zero one two facet plane
      ⟨c.1, c.2.1, [c.2.2]⟩
    else
      let c := simple_cut zero one two facet plane
      ⟨c.2.1, c.1, [c.2.2]⟩
  else if aboves = 1 then
    -- the source takes the first index whose position is `above`
    let i : Fin 3 := if pos 0 = .above then 0 else if pos 1 = .above then 1 else 2
    let c := complex_cut (facet.vertex i) (facet.vertex (i + 1)) (facet.vertex (i + 2)) facet plane
    ⟨c.1, c.2.1, [c.2.2]⟩
  else
    -- belows == 1, aboves == 2: first index whose position is `below`
    let i : Fin 3 := if pos 0 = .below then 0 else if pos 1 = .below then 1 else 2
    let c := complex_cut (facet.vertex i) (facet.vertex (i + 1)) (facet.vertex (i + 2)) facet plane
    ⟨c.2.1, c.1, [c.2.2]⟩

/-- The facets and border edges accumulated by running `separate` over a
whole list of facets (the loop at line 334), starting from empty
containers.  The border std::set is modelled as the list of inserted
edges; only emptiness and membership of this collection matter here, so
the set's ordering and deduplication are immaterial. -/
def separate_all (facets : List (stl_facet K)) (plane : stl_plane K) : CutOutput K :=
  facets.foldl (fun acc f =>
    let c := separate f plane
    ⟨acc.upper ++ c.upper, acc.lower ++ c.lower, acc.border ++ c.border⟩) ⟨[], [], []⟩

/-- `(*border.begin()).x` (line 343) — the projection origin taken from
the first border edge, `none` when the border collection is empty (the
source dereferences `begin()` of an empty set there). -/
def first_border_vertex (border : List (stl_vertex K × stl_vertex K)) : Option (stl_vertex K) :=
  border.head?.map Prod.fst

/-- The `border2d` deque (lines 345–354): every border edge's endpoints
projected to 2D. -/
def border_2d (plane : stl_plane K) (origin : stl_vertex K)
    (border : List (stl_vertex K × stl_vertex K)) :
    List (stl_vertex K × stl_vertex K) :=
  border.map fun e => (to_2D plane e.1 origin, to_2D plane e.2 origin)

/-- `is_same` — vertex comparison with tolerance on the x and y
coordinates only. -/
def is_same (a b : stl_vertex K) (tolerance : K) : Bool :=
  decide (|a.x - b.x| < tolerance) && decide (|a.y - b.y| < tolerance)

/-- One pass of the inner `for` loop (lines 367–380): scan the working
edge list for the first edge one of whose endpoints matches `back`
within the tolerance; return the appended vertex (the edge's other
endpoint) and the working list with that edge erased. -/
def find_border_match (back : stl_vertex K) (tol : K) :
    List (stl_vertex K × stl_vertex K) →
      Option (stl_vertex K × List (stl_vertex K × stl_vertex K))
  | [] => none
  | e :: rest =>
    if is_same back e.1 tol then some (e.2, rest)
    else if is_same back e.2 tol then some (e.1, rest)
    else
      match find_border_match back tol rest with
      | some (v, rest2) => some (v, e :: rest2)
      | none => none

lemma find_border_match_length {back : stl_vertex K} {tol : K} :
    ∀ {l : List (stl_vertex K × stl_vertex K)} {v rest},
      find_border_match back tol l = some (v, rest) → rest.length + 1 = l.length := by
  intro l
  induction l with
  | nil => intro v rest h; simp [find_border_match] at h
  | cons e es ih =>
    intro v rest h
    by_cases h1 : is_same back e.1 tol
    · simp [find_border_match, h1] at h
      simp [← h.2]
    · by_cases h2 : is_same back e.2 tol
      · simp [find_border_match, h1, h2] at h
        simp [← h.2]
      · simp only [find_border_match, h1, h2, Bool.false_eq_true, if_false] at h
        cases hm : find_border_match back tol es with
        | none => rw [hm] at h; simp at h
        | some vr =>
          rw [hm] at h
          obtain ⟨v2, rest2⟩ := vr
          simp at h
          have := ih hm
          simp [← h.2, ← this]

/-- The `while (found)` loop (lines 365–386).  The polyline is kept in
reverse order (most recently appended vertex first), so `polyline.back()`
is the head; each successful pass appends the matched vertex and erases
the matched edge. -/
def stitch_loop (tol : K) (polyline : List (stl_vertex K))
    (border2d : List (stl_vertex K × stl_vertex K)) : List (stl_vertex K) :=
  match h : find_border_match polyline.headI tol border2d with
  | none => polyline
  | some (v, rest) => stitch_loop tol (v :: polyline) rest
termination_by border2d.length
decreasing_by
  have := find_border_match_length h
  omega

/-- Lines 358–386: seed the polyline with the front edge's two vertices,
run the matching loop, and restore natural order. -/
def stitch_polyline (tol : K) (first : stl_vertex K × stl_vertex K)
    (rest : List (stl_vertex K × stl_vertex K)) : List (stl_vertex K) :=
  (stitch_loop tol [first.2, first.1] rest).reverse

/-- The projected L1 length `ABS(x.x-y.x)+ABS(x.y-y.y)` of one border
edge (line 350/352). -/
def edge_l1 (plane : stl_plane K) (origin : stl_vertex K)
    (e : stl_vertex K × stl_vertex K) : K :=
  let x := to_2D plane e.1 origin
  let y := to_2D plane e.2 origin
  |x.x - y.x| + |x.y - y.y|

/-- Lines 343–355: the Border Stitcher's matching tolerance.  The first
edge seeds the running value, every later edge lowers it by `min`, and
the result is divided by 4.  (The source iterates the `std::set` in its
sorted order; the minimum does not depend on the order.)  On an empty
border the source leaves `tolerance` uninitialised; this model returns 0
there. -/
def main_tolerance (plane : stl_plane K) (origin : stl_vertex K) :
    List (stl_vertex K × stl_vertex K) → K
  | [] => 0
  | e :: rest =>
    (rest.foldl (fun t e2 => min t (edge_l1 plane origin e2))
      (edge_l1 plane origin e)) / 4

/-- `normalize` — divide a vector by `sqrt(x*x+y*y+z*z)`. -/
noncomputable def normalize (v : stl_vertex ℝ) : stl_vertex ℝ :=
  let size := Real.sqrt (v.x * v.x + v.y * v.y + v.z * v.z)
  ⟨v.x / size, v.y / size, v.z / size⟩

/-- The `stl_plane` constructor (lines 55–82): store the coefficients and
derive the in-plane basis `a`, `b` by case analysis on zero components,
falling back to normalising `(y,-x,0)` and Gram–Schmidt on `(0,z,-y)`. -/
noncomputable def mk_plane (x y z d : ℝ) : stl_plane ℝ :=
  if x = 0 ∧ y = 0 then
    ⟨x, y, z, d, ⟨1, 0, 0⟩, ⟨0, 1, 0⟩⟩
  else if y = 0 ∧ z = 0 then
    ⟨x, y, z, d, ⟨0, 1, 0⟩, ⟨0, 0, 1⟩⟩
  else if x = 0 ∧ z = 0 then
    ⟨x, y, z, d, ⟨1, 0, 0⟩, ⟨0, 0, 1⟩⟩
  else
    let a := normalize ⟨y, -x, 0⟩
    let b0 : stl_vertex ℝ := ⟨0, z, -y⟩
    let r := dot a b0
    let b := normalize ⟨b0.x - a.x * r, b0.y - a.y * r, b0.z - a.z * r⟩
    ⟨x, y, z, d, a, b⟩

/-- Modelled from the spec's words, for comparison with `edge_l1`: the
Euclidean 2D length of a projected border edge. -/
noncomputable def edge_euclid (plane : stl_plane ℝ) (origin : stl_vertex ℝ)
    (e : stl_vertex ℝ × stl_vertex ℝ) : ℝ :=
  let x := to_2D plane e.1 origin
  let y := to_2D plane e.2 origin
  Real.sqrt ((x.x - y.x) ^ 2 + (x.y - y.y) ^ 2)

/-- Modelled from the spec's words, for comparison with `main_tolerance`:
one quarter of the minimum Euclidean 2D edge length. -/
noncomputable def spec_tolerance (plane : stl_plane ℝ) (origin : stl_vertex ℝ) :
    List (stl_vertex ℝ × stl_vertex ℝ) → ℝ
  | [] => 0
  | e :: rest =>
    (rest.foldl (fun t e2 => min t (edge_euclid plane origin e2))
      (edge_euclid plane origin e)) / 4

/-- Cross product, used only in proofs about the stored basis. -/
def cross (a b : stl_vertex K) : stl_vertex K :=
  ⟨a.y * b.z - a.z * b.y, a.z * b.x - a.x * b.z, a.x * b.y - a.y * b.x⟩

/-- Lines 406–423: the cap facet pushed to the lower half for one 2D
triangle `(p0, p1, p2)` returned by the triangulation: vertices mapped by
`to_3D`, normal equal to the plane normal.  (The source never initialises
the cap facets' `extra` bytes; they are modelled as `(0, 0)`.) -/
def cap_lower (plane : stl_plane K) (origin : stl_vertex K)
    (t : (K × K) × (K × K) × (K × K)) : stl_facet K :=
  { vertex := ![to_3D plane ⟨t.1.1, t.1.2, 0⟩ origin,
                to_3D plane ⟨t.2.1.1, t.2.1.2, 0⟩ origin,
                to_3D plane ⟨t.2.2.1, t.2.2.2, 0⟩ origin],
    normal := ⟨plane.x, plane.y, plane.z⟩,
    extra := (0, 0) }

/-- Lines 424–434: the cap facet pushed to the upper half: same mapped
vertices with the 2nd and 3rd swapped and the normal negated. -/
def cap_upper (plane : stl_plane K) (origin : stl_vertex K)
    (t : (K × K) × (K × K) × (K × K)) : stl_facet K :=
  { vertex := ![to_3D plane ⟨t.1.1, t.1.2, 0⟩ origin,
                to_3D plane ⟨t.2.2.1, t.2.2.2, 0⟩ origin,
                to_3D plane ⟨t.2.1.1, t.2.1.2, 0⟩ origin],
    normal := ⟨-plane.x, -plane.y, -plane.z⟩,
    extra := (0, 0) }

/-- The whole cap-building loop (lines 405–435): for each triangle from
the triangulation, one facet is appended to the upper half and one to
the lower half, in list order. -/
def cap_build (plane : stl_plane K) (origin : stl_vertex K)
    (tris : List ((K × K) × (K × K) × (K × K))) :
    List (stl_facet K) × List (stl_facet K) :=
  (tris.map (cap_upper plane origin), tris.map (cap_lower plane origin))

/-- Concrete inputs used by the witness theorems. -/
def wplane : stl_plane ℚ := ⟨0, 0, 1, 0, ⟨1, 0, 0⟩, ⟨0, 1, 0⟩⟩

def wfacet_cut : stl_facet ℚ :=
  { vertex := ![⟨0, 0, 0⟩, ⟨0, 0, 2⟩, ⟨1, 0, -2⟩], normal := ⟨1, 0, 0⟩, extra := (0, 0) }

def wfacet_complex : stl_facet ℚ :=
  { vertex := ![⟨0, 0, 2⟩, ⟨0, 0, -2⟩, ⟨1, 0, -2⟩], normal := ⟨1, 0, 0⟩, extra := (0, 0) }

def wfacet_above : stl_facet ℚ :=
  { vertex := ![⟨0, 0, 1⟩, ⟨1, 0, 1⟩, ⟨0, 1, 1⟩], normal := ⟨0, 0, 1⟩, extra := (0, 0) }

def wfacet_below : stl_facet ℚ :=
  { vertex := ![⟨0, 0, -1⟩, ⟨1, 0, -1⟩, ⟨0, 1, -1⟩], normal := ⟨0, 0, 1⟩, extra := (0, 0) }

def wfacet_on : stl_facet ℚ :=
  { vertex := ![⟨0, 0, 0⟩, ⟨1, 0, 0⟩, ⟨0, 1, 0⟩], normal := ⟨0, 0, 1⟩, extra := (0, 0) }

def wfacet_on_above : stl_facet ℚ :=
  { vertex := ![⟨0, 0, 0⟩, ⟨0, 0, 1⟩, ⟨1, 0, 1⟩], normal := ⟨0, 0, 1⟩, extra := (0, 0) }

def wfacet_on_below : stl_facet ℚ :=
  { vertex := ![⟨0, 0, 0⟩, ⟨0, 0, -1⟩, ⟨1, 0, -1⟩], normal := ⟨0, 0, 1⟩, extra := (0, 0) }

/-- Claim C1: `position` returns `above` iff `normal·v + d > 0`, `below`
iff `normal·v + d < 0` and `on` iff `normal·v + d = 0`; exact comparison
with zero, no tolerance, so the three outcomes partition all cases. -/
theorem position_exact_partition (p : stl_plane K) (v : stl_vertex K) :
    (position p v = .above ↔ 0 < p.x * v.x + p.y * v.y + p.z * v.z + p.d) ∧
    (position p v = .below ↔ p.x * v.x + p.y * v.y + p.z * v.z + p.d < 0) ∧
    (position p v = .on ↔ p.x * v.x + p.y * v.y + p.z * v.z + p.d = 0) := by
  rcases lt_trichotomy (p.x * v.x + p.y * v.y + p.z * v.z + p.d) 0 with h | h | h
  · simp [position, h, not_lt_of_lt h, h.ne]
  · simp [position, h]
  · simp [position, h, not_lt_of_lt h, h.ne.symm]

lemma separate_all_above (facet : stl_facet K) (plane : stl_plane K)
    (h : ∀ i, position plane (facet.vertex i) = .above) :
    separate facet plane = ⟨[facet], [], []⟩ := by
  simp [separate, h]

lemma separate_all_below (facet : stl_facet K) (plane : stl_plane K)
    (h : ∀ i, position plane (facet.vertex i) = .below) :
    separate facet plane = ⟨[], [facet], []⟩ := by
  simp [separate, h]

lemma separate_all_on (facet : stl_facet K) (plane : stl_plane K)
    (h : ∀ i, position plane (facet.vertex i) = .on) :
    separate facet plane = ⟨[], [], []⟩ := by
  simp [separate, h]

lemma separate_on_two_above (facet : stl_facet K) (plane : stl_plane K) (i : Fin 3)
    (h0 : position plane (facet.vertex i) = .on)
    (h1 : position plane (facet.vertex (i + 1)) = .above)
    (h2 : position plane (facet.vertex (i + 2)) = .above) :
    separate facet plane = ⟨[facet], [], []⟩ := by
  fin_cases i <;> simp_all [separate]

lemma separate_on_two_below (facet : stl_facet K) (plane : stl_plane K) (i : Fin 3)
    (h0 : position plane (facet.vertex i) = .on)
    (h1 : position plane (facet.vertex (i + 1)) = .below)
    (h2 : position plane (facet.vertex (i + 2)) = .below) :
    separate facet plane = ⟨[], [facet], []⟩ := by
  fin_cases i <;> simp_all [separate]

/-- Claim C2: a triangle with one vertex `zero` on the plane and the other
two (`one`, `two`, in triangle order) on strictly opposite sides is split
into `(middle, zero, one)` for the half matching `one`'s side and
`(middle, two, zero)` for the other half, where
`middle = intersection(one, two)`; exactly the directed edge
`(one, middle)` is inserted into the border set. -/
theorem separate_simple_cut (facet : stl_facet K) (plane : stl_plane K) (i : Fin 3)
    (h0 : position plane (facet.vertex i) = .on)
    (h1 : position plane (facet.vertex (i + 1)) ≠ .on)
    (h2 : position plane (facet.vertex (i + 2)) ≠ .on)
    (h12 : position plane (facet.vertex (i + 1)) ≠ position plane (facet.vertex (i + 2))) :
    separate facet plane =
      (let zero := facet.vertex i
       let one := facet.vertex (i + 1)
       let two := facet.vertex (i + 2)
       let middle := intersection plane one two
       if position plane (facet.vertex (i + 1)) = .above then
         ⟨[semifacet facet middle zero one], [semifacet facet middle two zero], [(one, middle)]⟩
       else
         ⟨[semifacet facet middle two zero], [semifacet facet middle zero one], [(one, middle)]⟩) := by
  have ht : ∀ q : stl_position, q = .above ∨ q = .on ∨ q = .below := by
    intro q; cases q <;> simp
  rcases ht (position plane (facet.vertex (i + 1))) with hp1 | hp1 | hp1 <;>
    rcases ht (position plane (facet.vertex (i + 2))) with hp2 | hp2 | hp2 <;>
      first
      | exact absurd hp1 h1
      | exact absurd hp2 h2
      | exact absurd (hp1.trans hp2.symm) h12
      | (fin_cases i <;> simp_all [separate, simple_cut])

/-- Claim C3: a triangle with no vertex on the plane and a lone vertex
`zero` on one side is split into `(zero, one_middle, two_middle)` for
`zero`'s half and `(one_middle, one, two)`, `(one_middle, two, two_middle)`
for the other half, where `one_middle = intersection(zero, one)` and
`two_middle = intersection(zero, two)`; exactly the directed border edge
`(one_middle, two_middle)` is inserted.  One-above is the mirror image of
one-below with the halves swapped. -/
theorem separate_complex_cut (facet : stl_facet K) (plane : stl_plane K) (i : Fin 3)
    (h : (position plane (facet.vertex i) = .above ∧
          position plane (facet.vertex (i + 1)) = .below ∧
          position plane (facet.vertex (i + 2)) = .below) ∨
         (position plane (facet.vertex i) = .below ∧
          position plane (facet.vertex (i + 1)) = .above ∧
          position plane (facet.vertex (i + 2)) = .above)) :
    separate facet plane =
      (let zero := facet.vertex i
       let one := facet.vertex (i + 1)
       let two := facet.vertex (i + 2)
       let om := intersection plane zero one
       let tm := intersection plane zero two
       if position plane (facet.vertex i) = .above then
         ⟨[semifacet facet zero om tm],
          [semifacet facet om one two, semifacet facet om two tm], [(om, tm)]⟩
       else
         ⟨[semifacet facet om one two, semifacet facet om two tm],
          [semifacet facet zero om tm], [(om, tm)]⟩) := by
  rcases h with ⟨h0, h1, h2⟩ | ⟨h0, h1, h2⟩ <;> fin_cases i <;>
    simp_all [separate, complex_cut]

/-- Claim C7: a triangle entirely on one side of the plane — all three
vertices strictly above (resp. below), or all three on the plane, or one
on and two strictly above (resp. below) — is appended unchanged to the
matching half (discarded when all three are on), with no border edge and
the other half untouched. -/
theorem separate_one_side_passthrough (facet : stl_facet K) (plane : stl_plane K) :
    ((∀ i, position plane (facet.vertex i) = .above) →
      separate facet plane = ⟨[facet], [], []⟩) ∧
    ((∀ i, position plane (facet.vertex i) = .below) →
      separate facet plane = ⟨[], [facet], []⟩) ∧
    ((∀ i, position plane (facet.vertex i) = .on) →
      separate facet plane = ⟨[], [], []⟩) ∧
    (∀ i, position plane (facet.vertex i) = .on →
      position plane (facet.vertex (i + 1)) = .above →
      position plane (facet.vertex (i + 2)) = .above →
      separate facet plane = ⟨[facet], [], []⟩) ∧
    (∀ i, position plane (facet.vertex i) = .on →
      position plane (facet.vertex (i + 1)) = .below →
      position plane (facet.vertex (i + 2)) = .below →
      separate facet plane = ⟨[], [facet], []⟩) :=
  ⟨separate_all_above facet plane,
   separate_all_below facet plane,
   separate_all_on facet plane,
   fun i => separate_on_two_above facet plane i,
   fun i => separate_on_two_below facet plane i⟩

/-- Witness for C2: a concrete simple cut (vertex 0 on the plane z = 0,
vertex 1 above, vertex 2 below). -/
theorem separate_simple_cut_witness :
    position wplane (wfacet_cut.vertex (0 : Fin 3)) = .on ∧
    position wplane (wfacet_cut.vertex ((0 : Fin 3) + 1)) ≠ .on ∧
    position wplane (wfacet_cut.vertex ((0 : Fin 3) + 2)) ≠ .on ∧
    position wplane (wfacet_cut.vertex ((0 : Fin 3) + 1)) ≠
      position wplane (wfacet_cut.vertex ((0 : Fin 3) + 2)) ∧
    separate wfacet_cut wplane =
      (let zero := wfacet_cut.vertex (0 : Fin 3)
       let one := wfacet_cut.vertex ((0 : Fin 3) + 1)
       let two := wfacet_cut.vertex ((0 : Fin 3) + 2)
       let middle := intersection wplane one two
       if position wplane (wfacet_cut.vertex ((0 : Fin 3) + 1)) = .above then
         ⟨[semifacet wfacet_cut middle zero one],
          [semifacet wfacet_cut middle two zero], [(one, middle)]⟩
       else
         ⟨[semifacet wfacet_cut middle two zero],
          [semifacet wfacet_cut middle zero one], [(one, middle)]⟩) := by
  have h0 : position wplane (wfacet_cut.vertex (0 : Fin 3)) = .on := by
    norm_num [position, wplane, wfacet_cut]
  have h1 : position wplane (wfacet_cut.vertex ((0 : Fin 3) + 1)) ≠ .on := by
    norm_num [position, wplane, wfacet_cut] <;> decide
  have h2 : position wplane (wfacet_cut.vertex ((0 : Fin 3) + 2)) ≠ .on := by
    norm_num [position, wplane, wfacet_cut] <;> decide
  have h12 : position wplane (wfacet_cut.vertex ((0 : Fin 3) + 1)) ≠
      position wplane (wfacet_cut.vertex ((0 : Fin 3) + 2)) := by
    norm_num [position, wplane, wfacet_cut] <;> decide
  exact ⟨h0, h1, h2, h12, separate_simple_cut wfacet_cut wplane 0 h0 h1 h2 h12⟩

/-- Witness for C3: a concrete complex cut (vertex 0 above the plane
z = 0, vertices 1 and 2 below). -/
theorem separate_complex_cut_witness :
    ((position wplane (wfacet_complex.vertex (0 : Fin 3)) = .above ∧
      position wplane (wfacet_complex.vertex ((0 : Fin 3) + 1)) = .below ∧
      position wplane (wfacet_complex.vertex ((0 : Fin 3) + 2)) = .below) ∨
     (position wplane (wfacet_complex.vertex (0 : Fin 3)) = .below ∧
      position wplane (wfacet_complex.vertex ((0 : Fin 3) + 1)) = .above ∧
      position wplane (wfacet_complex.vertex ((0 : Fin 3) + 2)) = .above)) ∧
    separate wfacet_complex wplane =
      (let zero := wfacet_complex.vertex (0 : Fin 3)
       let one := wfacet_complex.vertex ((0 : Fin 3) + 1)
       let two := wfacet_complex.vertex ((0 : Fin 3) + 2)
       let om := intersection wplane zero one
       let tm := intersection wplane zero two
       if position wplane (wfacet_complex.vertex (0 : Fin 3)) = .above then
         ⟨[semifacet wfacet_complex zero om tm],
          [semifacet wfacet_complex om one two, semifacet wfacet_complex om two tm],
          [(om, tm)]⟩
       else
         ⟨[semifacet wfacet_complex om one two, semifacet wfacet_complex om two tm],
          [semifacet wfacet_complex zero om tm], [(om, tm)]⟩) := by
  have h : (position wplane (wfacet_complex.vertex (0 : Fin 3)) = .above ∧
      position wplane (wfacet_complex.vertex ((0 : Fin 3) + 1)) = .below ∧
      position wplane (wfacet_complex.vertex ((0 : Fin 3) + 2)) = .below) ∨
      (position wplane (wfacet_complex.vertex (0 : Fin 3)) = .below ∧
      position wplane (wfacet_complex.vertex ((0 : Fin 3) + 1)) = .above ∧
      position wplane (wfacet_complex.vertex ((0 : Fin 3) + 2)) = .above) := by
    left
    refine ⟨?_, ?_, ?_⟩ <;> norm_num [position, wplane, wfacet_complex]
  exact ⟨h, separate_complex_cut wfacet_complex wplane 0 h⟩

/-- Witness for C7: concrete facets fully above, fully below, fully on,
and one-on-two-above / one-on-two-below. -/
theorem separate_one_side_passthrough_witness :
    separate wfacet_above wplane = ⟨[wfacet_above], [], []⟩ ∧
    separate wfacet_below wplane = ⟨[], [wfacet_below], []⟩ ∧
    separate wfacet_on wplane = ⟨[], [], []⟩ ∧
    separate wfacet_on_above wplane = ⟨[wfacet_on_above], [], []⟩ ∧
    separate wfacet_on_below wplane = ⟨[], [wfacet_on_below], []⟩ := by
  refine ⟨(separate_one_side_passthrough wfacet_above wplane).1 ?_,
          (separate_one_side_passthrough wfacet_below wplane).2.1 ?_,
          (separate_one_side_passthrough wfacet_on wplane).2.2.1 ?_,
          (separate_one_side_passthrough wfacet_on_above wplane).2.2.2.1 0 ?_ ?_ ?_,
          (separate_one_side_passthrough wfacet_on_below wplane).2.2.2.2 0 ?_ ?_ ?_⟩ <;>
    first
    | (intro i; fin_cases i <;>
        norm_num [position, wplane, wfacet_above, wfacet_below, wfacet_on])
    | norm_num [position, wplane, wfacet_on_above, wfacet_on_below]

/-- Claim C8: when every input facet lies strictly on one side of the
plane, the border collection is empty after the splitting pass, so the
stitcher's first accesses — the projection origin from the first border
edge and the front of the projected edge list — have no value; and those
accesses have a value exactly when the border collection is non-empty. -/
theorem empty_border_strict_sides (facets : List (stl_facet K)) (plane : stl_plane K)
    (origin : stl_vertex K)
    (h : ∀ f ∈ facets, (∀ i, position plane (f.vertex i) = .above) ∨
        (∀ i, position plane (f.vertex i) = .below)) :
    (separate_all facets plane).border = [] ∧
    first_border_vertex (separate_all facets plane).border = none ∧
    (border_2d plane origin (separate_all facets plane).border).head? = none ∧
    (∀ b : List (stl_vertex K × stl_vertex K), (first_border_vertex b).isSome ↔ b ≠ []) := by
  have gen : ∀ (fs : List (stl_facet K)) (acc : CutOutput K),
      (∀ f ∈ fs, (separate f plane).border = []) →
      (fs.foldl (fun acc f =>
        let c := separate f plane
        ⟨acc.upper ++ c.upper, acc.lower ++ c.lower, acc.border ++ c.border⟩) acc).border =
        acc.border := by
    intro fs
    induction fs with
    | nil => intro acc _; rfl
    | cons f fs ih =>
      intro acc hall
      rw [List.foldl_cons, ih _ (fun g hg => hall g (List.mem_cons_of_mem _ hg))]
      simp [hall f (List.mem_cons_self _ _)]
  have key : (separate_all facets plane).border = [] := by
    refine gen facets _ (fun f hf => ?_)
    rcases h f hf with ha | hb
    · rw [separate_all_above f plane ha]
    · rw [separate_all_below f plane hb]
  refine ⟨key, ?_, ?_, ?_⟩
  · rw [key]; rfl
  · rw [key]; rfl
  · intro b; cases b <;> simp [first_border_vertex]

/-- Witness for C8: a concrete two-facet mesh fully straddling-free
(one facet above, one below). -/
theorem empty_border_strict_sides_witness :
    (separate_all [wfacet_above, wfacet_below] wplane).border = [] ∧
    first_border_vertex (separate_all [wfacet_above, wfacet_below] wplane).border = none ∧
    (border_2d wplane ⟨0, 0, 0⟩
      (separate_all [wfacet_above, wfacet_below] wplane).border).head? = none ∧
    (∀ b : List (stl_vertex ℚ × stl_vertex ℚ), (first_border_vertex b).isSome ↔ b ≠ []) := by
  refine empty_border_strict_sides [wfacet_above, wfacet_below] wplane ⟨0, 0, 0⟩ ?_
  intro f hf
  rcases List.mem_cons.mp hf with hf1 | hf2
  · left
    subst hf1
    intro i
    fin_cases i <;> norm_num [position, wplane, wfacet_above]
  · right
    simp at hf2
    subst hf2
    intro i
    fin_cases i <;> norm_num [position, wplane, wfacet_below]

lemma stitch_loop_of_none (tol : K) (poly : List (stl_vertex K))
    (b : List (stl_vertex K × stl_vertex K))
    (h : find_border_match poly.headI tol b = none) : stitch_loop tol poly b = poly := by
  rw [stitch_loop]
  split
  · rfl
  · rename_i v rest heq
    rw [h] at heq
    cases heq

lemma stitch_loop_of_some (tol : K) (poly : List (stl_vertex K))
    (b : List (stl_vertex K × stl_vertex K)) (v : stl_vertex K)
    (rest : List (stl_vertex K × stl_vertex K))
    (h : find_border_match poly.headI tol b = some (v, rest)) :
    stitch_loop tol poly b = stitch_loop tol (v :: poly) rest := by
  rw [stitch_loop]
  split
  · rename_i heq
    rw [h] at heq
    cases heq
  · rename_i v2 rest2 heq
    rw [h] at heq
    cases heq
    rfl

lemma stitch_loop_length (tol : K) :
    ∀ (n : Nat) (b : List (stl_vertex K × stl_vertex K)), b.length ≤ n →
      ∀ poly : List (stl_vertex K),
        (stitch_loop tol poly b).length ≤ poly.length + b.length := by
  intro n
  induction n with
  | zero =>
    intro b hb poly
    have hnil : b = [] := List.length_eq_zero.mp (Nat.le_zero.mp hb)
    subst hnil
    rw [stitch_loop_of_none tol poly [] rfl]
    exact Nat.le_add_right _ _
  | succ n ih =>
    intro b hb poly
    cases hm : find_border_match poly.headI tol b with
    | none =>
      rw [stitch_loop_of_none tol poly b hm]
      exact Nat.le_add_right _ _
    | some vr =>
      obtain ⟨v, rest⟩ := vr
      have hl := find_border_match_length hm
      rw [stitch_loop_of_some tol poly b v rest hm]
      have := ih rest (by omega) (v :: poly)
      simp only [List.length_cons] at this
      omega

/-- Claim C10: the stitching loop terminates; each pass either removes
exactly one edge from the working list and prepends exactly one vertex to
the (reversed) polyline, or finds no match and exits; the final polyline
length is bounded by the starting length plus the number of working
edges, hence by 2 plus the edges remaining after seeding. -/
theorem stitch_loop_terminates (tol : K) (polyline : List (stl_vertex K))
    (border2d : List (stl_vertex K × stl_vertex K)) :
    (stitch_loop tol polyline border2d).length ≤ polyline.length + border2d.length ∧
    (∀ v rest, find_border_match polyline.headI tol border2d = some (v, rest) →
      rest.length + 1 = border2d.length ∧
      stitch_loop tol polyline border2d = stitch_loop tol (v :: polyline) rest) ∧
    (find_border_match polyline.headI tol border2d = none →
      stitch_loop tol polyline border2d = polyline) ∧
    (∀ first : stl_vertex K × stl_vertex K,
      (stitch_polyline tol first border2d).length ≤ 2 + border2d.length) := by
  refine ⟨stitch_loop_length tol border2d.length border2d le_rfl polyline, ?_,
    stitch_loop_of_none tol polyline border2d, ?_⟩
  · intro v rest h
    exact ⟨find_border_match_length h, stitch_loop_of_some tol polyline border2d v rest h⟩
  · intro first
    have := stitch_loop_length tol border2d.length border2d le_rfl [first.2, first.1]
    simpa [stitch_polyline] using this

/-- Witness for C10: one concrete matching step over the rationals. -/
theorem stitch_loop_terminates_witness :
    (stitch_loop (1 : ℚ) [⟨0, 0, 0⟩] [(⟨0, 0, 0⟩, ⟨5, 0, 0⟩)]).length ≤ 1 + 1 ∧
    ([] : List (stl_vertex ℚ × stl_vertex ℚ)).length + 1 = 1 ∧
    stitch_loop (1 : ℚ) [⟨0, 0, 0⟩] [(⟨0, 0, 0⟩, ⟨5, 0, 0⟩)] =
      stitch_loop (1 : ℚ) [⟨5, 0, 0⟩, ⟨0, 0, 0⟩] [] := by
  have h : find_border_match (([⟨0, 0, 0⟩] : List (stl_vertex ℚ)).headI) 1
      [(⟨0, 0, 0⟩, ⟨5, 0, 0⟩)] = some (⟨5, 0, 0⟩, []) := by
    norm_num [find_border_match, is_same]
  obtain ⟨hbound, hsome, _⟩ :=
    stitch_loop_terminates (1 : ℚ) [⟨0, 0, 0⟩] [(⟨0, 0, 0⟩, ⟨5, 0, 0⟩)]
  exact ⟨hbound, (hsome _ _ h).1, (hsome _ _ h).2⟩

lemma foldl_min_le_init (l : List K) (init : K) : l.foldl min init ≤ init := by
  induction l generalizing init with
  | nil => exact le_rfl
  | cons a l ih => exact le_trans (ih (min init a)) (min_le_left _ _)

lemma foldl_min_le_mem (l : List K) (init a : K) (ha : a ∈ l) : l.foldl min init ≤ a := by
  induction l generalizing init with
  | nil => cases ha
  | cons b l ih =>
    rcases List.mem_cons.mp ha with h | h
    · subst h
      exact le_trans (foldl_min_le_init l (min init a)) (min_le_right _ _)
    · exact ih (min init b) h

lemma foldl_min_cases (l : List K) (init : K) :
    l.foldl min init = init ∨ l.foldl min init ∈ l := by
  induction l generalizing init with
  | nil => left; rfl
  | cons a l ih =>
    rcases ih (min init a) with h | h
    · rcases le_total init a with hle | hle
      · left
        rw [List.foldl_cons, h, min_eq_left hle]
      · right
        rw [List.foldl_cons, h, min_eq_right hle]
        exact List.mem_cons_self _ _
    · right
      exact List.mem_cons_of_mem _ h

/-- Claim C5 (amended): the Border Stitcher's tolerance equals one
quarter of the minimum L1 length `|Δx| + |Δy|` over the projected border
edges: it is a lower bound of every edge's quarter-L1-length and is
attained by some edge. -/
theorem main_tolerance_min_l1 (plane : stl_plane K) (origin : stl_vertex K)
    (border : List (stl_vertex K × stl_vertex K)) (e : stl_vertex K × stl_vertex K)
    (rest : List (stl_vertex K × stl_vertex K)) (h : border = e :: rest) :
    (∀ f ∈ border, main_tolerance plane origin border ≤ edge_l1 plane origin f / 4) ∧
    (∃ f ∈ border, main_tolerance plane origin border = edge_l1 plane origin f / 4) := by
  subst h
  have hfold : rest.foldl (fun t e2 => min t (edge_l1 plane origin e2))
      (edge_l1 plane origin e) =
      (rest.map (edge_l1 plane origin)).foldl min (edge_l1 plane origin e) := by
    rw [List.foldl_map]
  have h4 : (0 : K) < 4 := by norm_num
  constructor
  · intro f hf
    rcases List.mem_cons.mp hf with hfe | hfr
    · subst hfe
      have := foldl_min_le_init (rest.map (edge_l1 plane origin)) (edge_l1 plane origin f)
      simp only [main_tolerance]
      rw [hfold]
      exact (div_le_div_iff_of_pos_right h4).mpr this
    · have mem : edge_l1 plane origin f ∈ rest.map (edge_l1 plane origin) :=
        List.mem_map_of_mem _ hfr
      have := foldl_min_le_mem (rest.map (edge_l1 plane origin))
        (edge_l1 plane origin e) (edge_l1 plane origin f) mem
      simp only [main_tolerance]
      rw [hfold]
      exact (div_le_div_iff_of_pos_right h4).mpr this
  · rcases foldl_min_cases (rest.map (edge_l1 plane origin)) (edge_l1 plane origin e)
        with hc | hc
    · refine ⟨e, List.mem_cons_self _ _, ?_⟩
      simp only [main_tolerance]
      rw [hfold, hc]
    · obtain ⟨f, hf, hval⟩ := List.mem_map.mp hc
      refine ⟨f, List.mem_cons_of_mem _ hf, ?_⟩
      simp only [main_tolerance]
      rw [hfold, ← hval]

/-- Witness for C5: a single concrete border edge over the rationals. -/
theorem main_tolerance_min_l1_witness :
    (∀ f ∈ [((⟨0, 0, 0⟩ : stl_vertex ℚ), (⟨3, 4, 0⟩ : stl_vertex ℚ))],
      main_tolerance wplane ⟨0, 0, 0⟩ [(⟨0, 0, 0⟩, ⟨3, 4, 0⟩)] ≤
        edge_l1 wplane ⟨0, 0, 0⟩ f / 4) ∧
    (∃ f ∈ [((⟨0, 0, 0⟩ : stl_vertex ℚ), (⟨3, 4, 0⟩ : stl_vertex ℚ))],
      main_tolerance wplane ⟨0, 0, 0⟩ [(⟨0, 0, 0⟩, ⟨3, 4, 0⟩)] =
        edge_l1 wplane ⟨0, 0, 0⟩ f / 4) :=
  main_tolerance_min_l1 wplane ⟨0, 0, 0⟩ _ _ _ rfl

/-- Counterexample for C5: for the plane `z = 0` (the one `main`
constructs) and the single projected border edge from `(0,0)` to `(3,4)`,
the code's tolerance is `7/4` (quarter of the L1 length 7) while a
quarter of the minimum Euclidean edge length is `5/4`; the claimed
equality with the Euclidean minimum fails. -/
theorem tolerance_not_euclidean :
    main_tolerance (mk_plane 0 0 1 0) ⟨0, 0, 0⟩ [(⟨0, 0, 0⟩, ⟨3, 4, 0⟩)] ≠
      spec_tolerance (mk_plane 0 0 1 0) ⟨0, 0, 0⟩ [(⟨0, 0, 0⟩, ⟨3, 4, 0⟩)] := by
  have hp : mk_plane 0 0 1 0 = ⟨0, 0, 1, 0, ⟨1, 0, 0⟩, ⟨0, 1, 0⟩⟩ := by
    rw [mk_plane, if_pos ⟨rfl, rfl⟩]
  have hl : main_tolerance (mk_plane 0 0 1 0) ⟨0, 0, 0⟩
      [(⟨0, 0, 0⟩, ⟨3, 4, 0⟩)] = 7 / 4 := by
    simp [main_tolerance, edge_l1, to_2D, dot, hp]
    norm_num
  have hr : spec_tolerance (mk_plane 0 0 1 0) ⟨0, 0, 0⟩
      [(⟨0, 0, 0⟩, ⟨3, 4, 0⟩)] = 5 / 4 := by
    simp only [spec_tolerance, edge_euclid, to_2D, dot, hp, List.foldl_nil]
    norm_num
    rw [show (25 : ℝ) = 5 ^ 2 by norm_num, Real.sqrt_sq (by norm_num : (0 : ℝ) ≤ 5)]
  rw [hl, hr]
  norm_num

lemma lagrange (a b : stl_vertex K) :
    dot (cross a b) (cross a b) = dot a a * dot b b - dot a b ^ 2 := by
  simp [dot, cross]
  ring

lemma cross_decomp (a b w : stl_vertex K) (ha : dot a a = 1) (hb : dot b b = 1)
    (hab : dot a b = 0) :
    w.x = dot a w * a.x + dot b w * b.x + dot (cross a b) w * (cross a b).x ∧
    w.y = dot a w * a.y + dot b w * b.y + dot (cross a b) w * (cross a b).y ∧
    w.z = dot a w * a.z + dot b w * b.z + dot (cross a b) w * (cross a b).z := by
  have L := lagrange a b
  rw [ha, hb, hab] at L
  norm_num at L
  refine ⟨?_, ?_, ?_⟩
  · have I : (cross a b).x * dot (cross a b) w - w.x * dot (cross a b) (cross a b) =
        dot a w * (b.x * dot a b - a.x * dot b b) -
        dot b w * (b.x * dot a a - a.x * dot a b) := by
      simp [dot, cross]
      ring
    rw [ha, hb, hab, L] at I
    nlinarith [I]
  · have I : (cross a b).y * dot (cross a b) w - w.y * dot (cross a b) (cross a b) =
        dot a w * (b.y * dot a b - a.y * dot b b) -
        dot b w * (b.y * dot a a - a.y * dot a b) := by
      simp [dot, cross]
      ring
    rw [ha, hb, hab, L] at I
    nlinarith [I]
  · have I : (cross a b).z * dot (cross a b) w - w.z * dot (cross a b) (cross a b) =
        dot a w * (b.z * dot a b - a.z * dot b b) -
        dot b w * (b.z * dot a a - a.z * dot a b) := by
      simp [dot, cross]
      ring
    rw [ha, hb, hab, L] at I
    nlinarith [I]

lemma frame_coplanar_decomp (a b n w : stl_vertex K) (ha : dot a a = 1) (hb : dot b b = 1)
    (hab : dot a b = 0) (han : dot a n = 0) (hbn : dot b n = 0)
    (hn : ¬(n.x = 0 ∧ n.y = 0 ∧ n.z = 0)) (hw : dot n w = 0) :
    w.x = dot a w * a.x + dot b w * b.x ∧
    w.y = dot a w * a.y + dot b w * b.y ∧
    w.z = dot a w * a.z + dot b w * b.z := by
  obtain ⟨dx, dy, dz⟩ := cross_decomp a b n ha hb hab
  rw [han, hbn] at dx dy dz
  norm_num at dx dy dz
  have hun : dot (cross a b) n ≠ 0 := by
    intro h0
    rw [h0] at dx dy dz
    norm_num at dx dy dz
    exact hn ⟨dx, dy, dz⟩
  set u := cross a b with hu
  set c := dot u n with hc
  have hnw : dot n w = c * dot u w := by
    simp only [dot]
    rw [dx, dy, dz]
    ring
  have huw : dot u w = 0 := by
    rw [hw] at hnw
    exact (mul_eq_zero.mp hnw.symm).resolve_left hun
  obtain ⟨ex, ey, ez⟩ := cross_decomp a b w ha hb hab
  rw [huw] at ex ey ez
  norm_num at ex ey ez
  exact ⟨ex, ey, ez⟩

/-- Claim C6 (amended): for every plane whose stored basis `a`, `b` is
orthonormal and orthogonal to the plane's nonzero normal, and every
origin and vertex `v` such that `v - origin` is parallel to the plane
(`normal · (v - origin) = 0`), `to_3D (to_2D v origin) origin`
reproduces `v` exactly.  This condition does not cover every border edge
the program produces: the edges inserted by the two-on case and by
`complex_cut` have both endpoints on the plane, but `simple_cut` inserts
`(one, middle)` whose first endpoint `one` is strictly off the plane
(line 176), and for such an endpoint — or such a projection origin — the
round trip genuinely moves the point (see the theorem after the
counterexample below). -/
theorem roundtrip_on_plane (p : stl_plane K) (ha : dot p.a p.a = 1) (hb : dot p.b p.b = 1)
    (hab : dot p.a p.b = 0) (han : dot p.a ⟨p.x, p.y, p.z⟩ = 0)
    (hbn : dot p.b ⟨p.x, p.y, p.z⟩ = 0)
    (hn : ¬(p.x = 0 ∧ p.y = 0 ∧ p.z = 0)) (v origin : stl_vertex K)
    (hco : dot ⟨p.x, p.y, p.z⟩ ⟨v.x - origin.x, v.y - origin.y, v.z - origin.z⟩ = 0) :
    to_3D p (to_2D p v origin) origin = v := by
  obtain ⟨dx, dy, dz⟩ := frame_coplanar_decomp p.a p.b ⟨p.x, p.y, p.z⟩
    ⟨v.x - origin.x, v.y - origin.y, v.z - origin.z⟩ ha hb hab han hbn hn hco
  obtain ⟨vx, vy, vz⟩ := v
  simp only [to_2D, to_3D] at dx dy dz ⊢
  simp only [stl_vertex.mk.injEq] at dx dy dz ⊢
  refine ⟨by linarith, by linarith, by linarith⟩

/-- Witness for C6: the plane `z = 0` as built by `mk_plane`, a vertex
and an origin both lying on a plane parallel to it. -/
theorem roundtrip_on_plane_witness :
    dot (mk_plane 0 0 1 0).a (mk_plane 0 0 1 0).a = 1 ∧
    dot (mk_plane 0 0 1 0).b (mk_plane 0 0 1 0).b = 1 ∧
    dot (mk_plane 0 0 1 0).a (mk_plane 0 0 1 0).b = 0 ∧
    dot (mk_plane 0 0 1 0).a
      ⟨(mk_plane 0 0 1 0).x, (mk_plane 0 0 1 0).y, (mk_plane 0 0 1 0).z⟩ = 0 ∧
    dot (mk_plane 0 0 1 0).b
      ⟨(mk_plane 0 0 1 0).x, (mk_plane 0 0 1 0).y, (mk_plane 0 0 1 0).z⟩ = 0 ∧
    ¬((mk_plane 0 0 1 0).x = 0 ∧ (mk_plane 0 0 1 0).y = 0 ∧ (mk_plane 0 0 1 0).z = 0) ∧
    dot ⟨(mk_plane 0 0 1 0).x, (mk_plane 0 0 1 0).y, (mk_plane 0 0 1 0).z⟩
      ⟨(2 : ℝ) - 1, (3 : ℝ) - 1, (0 : ℝ) - 0⟩ = 0 ∧
    to_3D (mk_plane 0 0 1 0) (to_2D (mk_plane 0 0 1 0) ⟨2, 3, 0⟩ ⟨1, 1, 0⟩) ⟨1, 1, 0⟩ =
      ⟨2, 3, 0⟩ := by
  have hp : mk_plane 0 0 1 0 = ⟨0, 0, 1, 0, ⟨1, 0, 0⟩, ⟨0, 1, 0⟩⟩ := by
    rw [mk_plane, if_pos ⟨rfl, rfl⟩]
  have ha : dot (mk_plane 0 0 1 0).a (mk_plane 0 0 1 0).a = 1 := by
    rw [hp]; norm_num [dot]
  have hb : dot (mk_plane 0 0 1 0).b (mk_plane 0 0 1 0).b = 1 := by
    rw [hp]; norm_num [dot]
  have hab : dot (mk_plane 0 0 1 0).a (mk_plane 0 0 1 0).b = 0 := by
    rw [hp]; norm_num [dot]
  have han : dot (mk_plane 0 0 1 0).a
      ⟨(mk_plane 0 0 1 0).x, (mk_plane 0 0 1 0).y, (mk_plane 0 0 1 0).z⟩ = 0 := by
    rw [hp]; norm_num [dot]
  have hbn : dot (mk_plane 0 0 1 0).b
      ⟨(mk_plane 0 0 1 0).x, (mk_plane 0 0 1 0).y, (mk_plane 0 0 1 0).z⟩ = 0 := by
    rw [hp]; norm_num [dot]
  have hn : ¬((mk_plane 0 0 1 0).x = 0 ∧ (mk_plane 0 0 1 0).y = 0 ∧
      (mk_plane 0 0 1 0).z = 0) := by
    rw [hp]; norm_num
  have hco : dot ⟨(mk_plane 0 0 1 0).x, (mk_plane 0 0 1 0).y, (mk_plane 0 0 1 0).z⟩
      ⟨(2 : ℝ) - 1, (3 : ℝ) - 1, (0 : ℝ) - 0⟩ = 0 := by
    rw [hp]; norm_num [dot]
  exact ⟨ha, hb, hab, han, hbn, hn, hco,
    roundtrip_on_plane (mk_plane 0 0 1 0) ha hb hab han hbn hn ⟨2, 3, 0⟩ ⟨1, 1, 0⟩ hco⟩

/-- Counterexample for C6: for the plane `z = 0` (as built by `mk_plane`),
origin `(0,0,0)` and the off-plane vertex `(0,0,1)`, the 2D/3D round trip
returns `(0,0,0)`, not the original vertex — the claimed identity for
every vertex and every origin fails. -/
theorem roundtrip_fails_off_plane :
    to_3D (mk_plane 0 0 1 0) (to_2D (mk_plane 0 0 1 0) ⟨0, 0, 1⟩ ⟨0, 0, 0⟩) ⟨0, 0, 0⟩ ≠
      (⟨0, 0, 1⟩ : stl_vertex ℝ) := by
  have hp : mk_plane 0 0 1 0 = ⟨0, 0, 1, 0, ⟨1, 0, 0⟩, ⟨0, 1, 0⟩⟩ := by
    rw [mk_plane, if_pos ⟨rfl, rfl⟩]
  rw [hp]
  norm_num [to_2D, to_3D, dot, stl_vertex.mk.injEq]

/-- Border-edge endpoints need not lie on the cutting plane: for the
plane `z = 0` and the simple cut of the segment from `(0,0,2)` (above)
to `(1,0,-2)` (below), the inserted border edge is
`(one, middle) = ((0,0,2), (1/2,0,0))` whose first endpoint is strictly
above the plane; taking that off-plane endpoint as the projection
origin, the 2D/3D round trip of the other endpoint `(1/2,0,0)` returns
`(1/2,0,2)`, not the original point.  So the round-trip identity cannot
be extended to all border-edge endpoints with a border-endpoint
origin. -/
theorem simple_cut_border_endpoint_off_plane :
    (∀ F : stl_facet ℝ,
      (simple_cut ⟨0, 0, 0⟩ ⟨0, 0, 2⟩ ⟨1, 0, -2⟩ F (mk_plane 0 0 1 0)).2.2 =
        ((⟨0, 0, 2⟩ : stl_vertex ℝ), (⟨1 / 2, 0, 0⟩ : stl_vertex ℝ))) ∧
    position (mk_plane 0 0 1 0) ⟨0, 0, 2⟩ = .above ∧
    to_3D (mk_plane 0 0 1 0) (to_2D (mk_plane 0 0 1 0) ⟨1 / 2, 0, 0⟩ ⟨0, 0, 2⟩) ⟨0, 0, 2⟩ =
      (⟨1 / 2, 0, 2⟩ : stl_vertex ℝ) ∧
    (⟨1 / 2, 0, 2⟩ : stl_vertex ℝ) ≠ (⟨1 / 2, 0, 0⟩ : stl_vertex ℝ) := by
  have hp : mk_plane 0 0 1 0 = ⟨0, 0, 1, 0, ⟨1, 0, 0⟩, ⟨0, 1, 0⟩⟩ := by
    rw [mk_plane, if_pos ⟨rfl, rfl⟩]
  refine ⟨?_, ?_, ?_, ?_⟩
  · intro F
    rw [hp]
    norm_num [simple_cut, intersection, stl_vertex.mk.injEq, Prod.ext_iff]
  · rw [hp]
    norm_num [position]
  · rw [hp]
    norm_num [to_2D, to_3D, dot, stl_vertex.mk.injEq]
  · norm_num [stl_vertex.mk.injEq]

/-- Claim C4 (the code's slip, exhibited): for the normal `(1, 0, 1)` —
nonzero, but with `y = 0` and `x, z ≠ 0` so that none of the three
degenerate branches fires — the general branch's Gram–Schmidt step
subtracts the projection of `(0, z, -y) = (0, 1, 0)` onto
`a = (0, -1, 0)` and gets the zero vector, so the stored `b` is
`normalize((0,0,0))` (NaN in the C code's float arithmetic, the zero
vector in this exact model): not a unit vector, so `{a, b, normal}` is
not an orthonormal frame. -/
theorem mk_plane_basis_degenerate :
    (mk_plane 1 0 1 0).b = ⟨0, 0, 0⟩ ∧
    dot (mk_plane 1 0 1 0).b (mk_plane 1 0 1 0).b = 0 ∧
    dot (mk_plane 1 0 1 0).a (mk_plane 1 0 1 0).a = 1 := by
  have hb : (mk_plane 1 0 1 0).b = ⟨0, 0, 0⟩ := by
    rw [mk_plane, if_neg (by norm_num), if_neg (by norm_num), if_neg (by norm_num)]
    simp only [normalize, dot]
    norm_num
  have ha : (mk_plane 1 0 1 0).a = ⟨0, -1, 0⟩ := by
    rw [mk_plane, if_neg (by norm_num), if_neg (by norm_num), if_neg (by norm_num)]
    simp only [normalize]
    norm_num
  refine ⟨hb, ?_, ?_⟩
  · rw [hb]; norm_num [dot]
  · rw [ha]; norm_num [dot]

lemma normalize_self_dot (v : stl_vertex ℝ) (h : 0 < v.x * v.x + v.y * v.y + v.z * v.z) :
    dot (normalize v) (normalize v) = 1 := by
  have hs : Real.sqrt (v.x * v.x + v.y * v.y + v.z * v.z) *
      Real.sqrt (v.x * v.x + v.y * v.y + v.z * v.z) = v.x * v.x + v.y * v.y + v.z * v.z :=
    Real.mul_self_sqrt h.le
  have hs0 : Real.sqrt (v.x * v.x + v.y * v.y + v.z * v.z) ≠ 0 :=
    (Real.sqrt_pos.mpr h).ne'
  simp only [normalize, dot]
  field_simp

lemma normalize_dot_left (v u : stl_vertex ℝ) :
    dot (normalize v) u = dot v u / Real.sqrt (v.x * v.x + v.y * v.y + v.z * v.z) := by
  simp only [normalize, dot]
  ring

lemma normalize_dot_right (u v : stl_vertex ℝ) :
    dot u (normalize v) = dot u v / Real.sqrt (v.x * v.x + v.y * v.y + v.z * v.z) := by
  simp only [normalize, dot]
  ring

lemma gram_schmidt_frame (x y z : ℝ) (hy : y ≠ 0) (a b1 : stl_vertex ℝ)
    (hA : a = normalize ⟨y, -x, 0⟩)
    (hB : b1 = ⟨0 - a.x * dot a ⟨0, z, -y⟩, z - a.y * dot a ⟨0, z, -y⟩,
      -y - a.z * dot a ⟨0, z, -y⟩⟩) :
    dot a a = 1 ∧ dot (normalize b1) (normalize b1) = 1 ∧ dot a (normalize b1) = 0 ∧
    dot a ⟨x, y, z⟩ = 0 ∧ dot (normalize b1) ⟨x, y, z⟩ = 0 := by
  have hvpos : 0 < (⟨y, -x, 0⟩ : stl_vertex ℝ).x * (⟨y, -x, 0⟩ : stl_vertex ℝ).x +
      (⟨y, -x, 0⟩ : stl_vertex ℝ).y * (⟨y, -x, 0⟩ : stl_vertex ℝ).y +
      (⟨y, -x, 0⟩ : stl_vertex ℝ).z * (⟨y, -x, 0⟩ : stl_vertex ℝ).z := by
    simp only []
    nlinarith [mul_self_nonneg x, mul_self_pos.mpr hy]
  have ha : dot a a = 1 := by
    rw [hA]
    exact normalize_self_dot _ hvpos
  have haz : a.z = 0 := by
    rw [hA]
    simp [normalize]
  have han : dot a ⟨x, y, z⟩ = 0 := by
    rw [hA, normalize_dot_left]
    have hnum : dot ⟨y, -x, 0⟩ (⟨x, y, z⟩ : stl_vertex ℝ) = 0 := by
      simp [dot]
      ring
    rw [hnum, zero_div]
  have hb1z : b1.z = -y := by
    rw [hB]
    simp [haz]
  have hb1pos : 0 < b1.x * b1.x + b1.y * b1.y + b1.z * b1.z := by
    rw [hb1z]
    nlinarith [mul_self_nonneg b1.x, mul_self_nonneg b1.y, mul_self_pos.mpr hy]
  have hb : dot (normalize b1) (normalize b1) = 1 := normalize_self_dot b1 hb1pos
  have hab1 : dot a b1 = 0 := by
    have expand : dot a b1 = dot a ⟨0, z, -y⟩ - dot a ⟨0, z, -y⟩ * dot a a := by
      rw [hB]
      simp [dot]
      ring
    rw [expand, ha, mul_one, sub_self]
  have hab : dot a (normalize b1) = 0 := by
    rw [normalize_dot_right, hab1, zero_div]
  have hb1n : dot b1 ⟨x, y, z⟩ = 0 := by
    have expand : dot b1 ⟨x, y, z⟩ =
        dot ⟨0, z, -y⟩ (⟨x, y, z⟩ : stl_vertex ℝ) - dot a ⟨0, z, -y⟩ * dot a ⟨x, y, z⟩ := by
      rw [hB]
      simp [dot]
      ring
    have hb0n : dot ⟨0, z, -y⟩ (⟨x, y, z⟩ : stl_vertex ℝ) = 0 := by
      simp [dot]
      ring
    rw [expand, hb0n, han, mul_zero, sub_zero]
  have hbn : dot (normalize b1) ⟨x, y, z⟩ = 0 := by
    rw [normalize_dot_left, hb1n, zero_div]
  exact ⟨ha, hb, hab, han, hbn⟩

/-- Supporting fact for C4, showing the intended invariant everywhere the
construction does work: for every nonzero normal outside the untreated
degenerate shape (`y = 0` with `x, z ≠ 0`), the stored basis is
orthonormal and orthogonal to the normal. -/
lemma mk_plane_orthonormal (x y z d : ℝ) (hnz : ¬(x = 0 ∧ y = 0 ∧ z = 0))
    (hok : ¬(y = 0 ∧ x ≠ 0 ∧ z ≠ 0)) :
    dot (mk_plane x y z d).a (mk_plane x y z d).a = 1 ∧
    dot (mk_plane x y z d).b (mk_plane x y z d).b = 1 ∧
    dot (mk_plane x y z d).a (mk_plane x y z d).b = 0 ∧
    dot (mk_plane x y z d).a ⟨x, y, z⟩ = 0 ∧
    dot (mk_plane x y z d).b ⟨x, y, z⟩ = 0 := by
  by_cases h1 : x = 0 ∧ y = 0
  · obtain ⟨hx, hy⟩ := h1
    subst hx
    subst hy
    rw [mk_plane, if_pos ⟨rfl, rfl⟩]
    norm_num [dot]
  · by_cases h2 : y = 0 ∧ z = 0
    · obtain ⟨hy, hz⟩ := h2
      subst hy
      subst hz
      rw [mk_plane, if_neg h1, if_pos ⟨rfl, rfl⟩]
      norm_num [dot]
    · by_cases h3 : x = 0 ∧ z = 0
      · obtain ⟨hx, hz⟩ := h3
        subst hx
        subst hz
        rw [mk_plane, if_neg h1, if_neg h2, if_pos ⟨rfl, rfl⟩]
        norm_num [dot]
      · have hy : y ≠ 0 := by
          intro hy0
          exact hok ⟨hy0, fun hx0 => h1 ⟨hx0, hy0⟩, fun hz0 => h2 ⟨hy0, hz0⟩⟩
        have hpa : (mk_plane x y z d).a = normalize ⟨y, -x, 0⟩ := by
          rw [mk_plane, if_neg h1, if_neg h2, if_neg h3]
        have hpb : (mk_plane x y z d).b = normalize
            ⟨0 - (mk_plane x y z d).a.x * dot (mk_plane x y z d).a ⟨0, z, -y⟩,
             z - (mk_plane x y z d).a.y * dot (mk_plane x y z d).a ⟨0, z, -y⟩,
             -y - (mk_plane x y z d).a.z * dot (mk_plane x y z d).a ⟨0, z, -y⟩⟩ := by
          rw [hpa]
          rw [mk_plane, if_neg h1, if_neg h2, if_neg h3]
        obtain ⟨ha, hb, hab, han, hbn⟩ := gram_schmidt_frame x y z hy
          (mk_plane x y z d).a _ hpa rfl
        rw [← hpb] at hb hab hbn
        exact ⟨ha, hb, hab, han, hbn⟩

/-- Claim C9: for the `i`-th 2D triangle `(p0, p1, p2)` returned by the
triangulation, the cap builder appends to the lower half a facet with
vertices `to_3D p0, to_3D p1, to_3D p2` and normal equal to the plane
normal, and to the upper half a facet with the 2nd and 3rd mapped
vertices swapped and the negated normal; both halves receive exactly one
cap facet per triangle. -/
theorem cap_build_mirrored (plane : stl_plane K) (origin : stl_vertex K)
    (tris : List ((K × K) × (K × K) × (K × K))) (i : Nat)
    (t : (K × K) × (K × K) × (K × K)) (h : tris.get? i = some t) :
    (cap_build plane origin tris).1.length = tris.length ∧
    (cap_build plane origin tris).2.length = tris.length ∧
    ((cap_build plane origin tris).2.get? i).map stl_facet.vertex =
      some ![to_3D plane ⟨t.1.1, t.1.2, 0⟩ origin,
             to_3D plane ⟨t.2.1.1, t.2.1.2, 0⟩ origin,
             to_3D plane ⟨t.2.2.1, t.2.2.2, 0⟩ origin] ∧
    ((cap_build plane origin tris).2.get? i).map stl_facet.normal =
      some ⟨plane.x, plane.y, plane.z⟩ ∧
    ((cap_build plane origin tris).1.get? i).map stl_facet.vertex =
      some ![to_3D plane ⟨t.1.1, t.1.2, 0⟩ origin,
             to_3D plane ⟨t.2.2.1, t.2.2.2, 0⟩ origin,
             to_3D plane ⟨t.2.1.1, t.2.1.2, 0⟩ origin] ∧
    ((cap_build plane origin tris).1.get? i).map stl_facet.normal =
      some ⟨-plane.x, -plane.y, -plane.z⟩ := by
  have h2 : ((cap_build plane origin tris).2.get? i) = some (cap_lower plane origin t) := by
    show (tris.map (cap_lower plane origin)).get? i = _
    rw [List.get?_map, h]
    rfl
  have h1 : ((cap_build plane origin tris).1.get? i) = some (cap_upper plane origin t) := by
    show (tris.map (cap_upper plane origin)).get? i = _
    rw [List.get?_map, h]
    rfl
  refine ⟨by simp [cap_build], by simp [cap_build], ?_, ?_, ?_, ?_⟩
  · rw [h2]; rfl
  · rw [h2]; rfl
  · rw [h1]; rfl
  · rw [h1]; rfl

/-- Witness for C9: one concrete 2D triangle over the rationals. -/
theorem cap_build_mirrored_witness :
    (cap_build wplane ⟨0, 0, 0⟩ [((0, 0), (1, 0), (0, 1))]).1.length = 1 ∧
    (cap_build wplane ⟨0, 0, 0⟩ [((0, 0), (1, 0), (0, 1))]).2.length = 1 ∧
    ((cap_build wplane ⟨0, 0, 0⟩ [((0, 0), (1, 0), (0, 1))]).2.get? 0).map stl_facet.vertex =
      some ![to_3D wplane ⟨0, 0, 0⟩ ⟨0, 0, 0⟩,
             to_3D wplane ⟨1, 0, 0⟩ ⟨0, 0, 0⟩,
             to_3D wplane ⟨0, 1, 0⟩ ⟨0, 0, 0⟩] ∧
    ((cap_build wplane ⟨0, 0, 0⟩ [((0, 0), (1, 0), (0, 1))]).2.get? 0).map stl_facet.normal =
      some ⟨wplane.x, wplane.y, wplane.z⟩ ∧
    ((cap_build wplane ⟨0, 0, 0⟩ [((0, 0), (1, 0), (0, 1))]).1.get? 0).map stl_facet.vertex =
      some ![to_3D wplane ⟨0, 0, 0⟩ ⟨0, 0, 0⟩,
             to_3D wplane ⟨0, 1, 0⟩ ⟨0, 0, 0⟩,
             to_3D wplane ⟨1, 0, 0⟩ ⟨0, 0, 0⟩] ∧
    ((cap_build wplane ⟨0, 0, 0⟩ [((0, 0), (1, 0), (0, 1))]).1.get? 0).map stl_facet.normal =
      some ⟨-wplane.x, -wplane.y, -wplane.z⟩ :=
  cap_build_mirrored wplane ⟨0, 0, 0⟩ [((0, 0), (1, 0), (0, 1))] 0 ((0, 0), (1, 0), (0, 1)) rfl

end Stlcut
